import Mathlib

/-!
Shallow embedding of the portfolio-statistics and optimization code of
project-sharpe (src/main.py, src/sortino.py, src/risk.py).

Numbers held in NumPy arrays are modelled as exact rationals (ℚ) wherever the
source performs only field operations, and as real numbers (ℝ) once an
irrational function (sqrt, log, exp) is applied.  IEEE special values are
explicit: `Option ℝ` uses `none` for NaN where only NaN can arise, and the
type `FVal` carries NaN, +inf and -inf where division can overflow.
-/

namespace Sharpe

/-- A floating-point value: finite, NaN, or a signed infinity. -/
inductive FVal where
  | nan : FVal
  | posInf : FVal
  | negInf : FVal
  | fin : ℝ → FVal
deriving Inhabited

/-- NaN test on `FVal` (structural; the real payload is never inspected). -/
def FVal.isNaN : FVal → Bool
  | .nan => true
  | _ => false

/-- Dot product of two vectors, as in `np.dot(w, v)` /  `w @ v`. -/
def dot (xs ys : List ℚ) : ℚ :=
  (List.zipWith (· * ·) xs ys).sum

/-- Matrix–vector product `m @ v`: one dot product per row. -/
def matVec (m : List (List ℚ)) (v : List ℚ) : List ℚ :=
  m.map (fun row => dot row v)

/-- The quadratic form `w.T @ cov @ w` from `compute_portfolio_stats`. -/
def quadForm (cov : List (List ℚ)) (w : List ℚ) : ℚ :=
  dot w (matVec cov w)

/-- `np.sqrt` on an exact rational: NaN (`none`) on negative input, otherwise
the real square root.  NumPy does not clamp a negative radicand. -/
noncomputable def npSqrt (q : ℚ) : Option ℝ :=
  if q < 0 then none else some (Real.sqrt q)

/-- `port_vol = np.sqrt(weights.T @ cov_matrix @ weights)` (src/main.py line 46
and src/sortino.py line 34). -/
noncomputable def portfolio_vol (weights : List ℚ) (cov_matrix : List (List ℚ)) :
    Option ℝ :=
  npSqrt (quadForm cov_matrix weights)

/-- IEEE evaluation of `num / np.sqrt q` for `num : ℚ`:
NaN radicand gives NaN; a zero radicand means division of a finite number by
zero, giving ±inf by the numerator's sign and NaN for 0/0; a positive radicand
gives the finite quotient.  This is `sharpe = (port_return - risk_free_rate) /
port_vol` in src/main.py line 47, which has no zero-volatility guard. -/
noncomputable def divBySqrt (num q : ℚ) : FVal :=
  if q < 0 then .nan
  else if q = 0 then
    if 0 < num then .posInf else if num < 0 then .negInf else .nan
  else .fin ((num : ℝ) / Real.sqrt (q : ℝ))

/-- `compute_portfolio_stats` of src/main.py (lines 43–48): returns
`(port_return, port_vol, sharpe)`. -/
noncomputable def compute_portfolio_stats (weights mean_returns : List ℚ)
    (cov_matrix : List (List ℚ)) (risk_free_rate : ℚ) :
    ℚ × Option ℝ × FVal :=
  let port_return := dot weights mean_returns
  let port_vol := portfolio_vol weights cov_matrix
  let sharpe := divBySqrt (port_return - risk_free_rate) (quadForm cov_matrix weights)
  (port_return, port_vol, sharpe)

/-- `portfolio_returns = returns @ weights` (src/sortino.py line 37). -/
def portfolio_returns (weights : List ℚ) (returns : List (List ℚ)) : List ℚ :=
  (returns.map (fun row => dot row weights))

/-- `downside_returns = portfolio_returns[portfolio_returns < 0]`
(src/sortino.py line 38). -/
def downside_returns (weights : List ℚ) (returns : List (List ℚ)) : List ℚ :=
  (portfolio_returns weights returns).filter (fun p => p < 0)

/-- The population variance computed inside `np.std`: mean of squared
deviations from the sample mean.  Only used on nonempty lists (`npStd` guards
the empty case, where NumPy yields NaN). -/
def popVar (xs : List ℚ) : ℚ :=
  (xs.map (fun x => (x - xs.sum / xs.length) ^ 2)).sum / xs.length

/-- `np.std`: NaN (`none`) on an empty array, otherwise the square root of the
population variance. -/
noncomputable def npStd (xs : List ℚ) : Option ℝ :=
  if xs = [] then none else some (Real.sqrt (popVar xs))

/-- `downside_std = np.std(downside_returns) * np.sqrt(252)`
(src/sortino.py line 39); NaN propagates through the product. -/
noncomputable def downside_std (weights : List ℚ) (returns : List (List ℚ)) :
    Option ℝ :=
  (npStd (downside_returns weights returns)).map (fun s => s * Real.sqrt 252)

/-- `sortino = (portfolio_return - risk_free_rate) / downside_std if
downside_std > 0 else 0` (src/sortino.py line 42).  The IEEE test
`downside_std > 0` holds iff the downside set is nonempty (otherwise the std
is NaN and the comparison is false) and its population variance is positive
(otherwise the std is exactly 0); that rational condition is decidable and is
used as the guard here, with the quotient spelled out in the positive case. -/
noncomputable def sortinoVal (num : ℚ) (weights : List ℚ)
    (returns : List (List ℚ)) : ℝ :=
  if downside_returns weights returns ≠ [] ∧
      0 < popVar (downside_returns weights returns) then
    (num : ℝ) / (Real.sqrt (popVar (downside_returns weights returns)) *
      Real.sqrt 252)
  else 0

/-- `compute_portfolio_stats` of src/sortino.py (lines 31–43): returns
`(portfolio_return, portfolio_vol, sortino)`. -/
noncomputable def compute_portfolio_stats_sortino (weights mean_returns : List ℚ)
    (cov_matrix : List (List ℚ)) (returns : List (List ℚ))
    (risk_free_rate : ℚ) : ℚ × Option ℝ × ℝ :=
  let port_return := dot weights mean_returns
  (port_return, portfolio_vol weights cov_matrix,
   sortinoVal (port_return - risk_free_rate) weights returns)

/-- The result record returned by `scipy.optimize.minimize`: the convergence
flag `result.success`, the best objective value `result.fun` (named `objFun`
since `fun` is a Lean keyword), and the best iterate `result.x`. -/
structure OptResult where
  success : Bool
  objFun : ℚ
  x : List ℚ
deriving DecidableEq

/-- The external SLSQP solver `scipy.optimize.minimize`, abstracted as a
parameter: it receives the objective function, the initial point, and the
list of equality-constraint functions (the fixed (0,1) bounds tuple carries
no information beyond the weight count) and returns an `OptResult`. -/
def Minimizer : Type :=
  (List ℚ → FVal) → List ℚ → List (List ℚ → ℚ) → OptResult

/-- Negation of an IEEE value, for the `-sharpe` / `-sortino` objectives. -/
def FVal.neg : FVal → FVal
  | .nan => .nan
  | .posInf => .negInf
  | .negInf => .posInf
  | .fin x => .fin (-x)

/-- `min_variance` (src/main.py lines 72–78): minimizes `w.T @ cov @ w`
subject to `np.sum(w) - 1 = 0` from the uniform start `n*[1./n]`, and
returns only `result.x` — the convergence flag and objective are dropped. -/
noncomputable def min_variance (minimize : Minimizer)
    (mean_returns : List ℚ) (cov_matrix : List (List ℚ)) : List ℚ :=
  let n := mean_returns.length
  (minimize (fun w => .fin (quadForm cov_matrix w : ℝ))
    (List.replicate n (1 / (n : ℚ)))
    [fun w => w.sum - 1]).x

/-- The `neg_sharpe` objective of `max_sharpe_portfolio`
(src/main.py lines 102–104). -/
noncomputable def neg_sharpe (mean_returns : List ℚ)
    (cov_matrix : List (List ℚ)) (risk_free_rate : ℚ) (w : List ℚ) : FVal :=
  ((compute_portfolio_stats w mean_returns cov_matrix risk_free_rate).2.2).neg

/-- `max_sharpe_portfolio` (src/main.py lines 100–108): returns the solver's
full result record. -/
noncomputable def max_sharpe_portfolio (minimize : Minimizer)
    (mean_returns : List ℚ) (cov_matrix : List (List ℚ))
    (risk_free_rate : ℚ) : OptResult :=
  let n := mean_returns.length
  minimize (neg_sharpe mean_returns cov_matrix risk_free_rate)
    (List.replicate n (1 / (n : ℚ)))
    [fun w => w.sum - 1]

/-- One frontier solve (loop body of src/main.py lines 85–90): minimize the
variance subject to `np.sum(w) - 1 = 0` and `np.dot(w, mean_returns) - r = 0`,
re-solving from the uniform seed for every target. -/
noncomputable def frontier_solve (minimize : Minimizer)
    (mean_returns : List ℚ) (cov_matrix : List (List ℚ)) (r : ℚ) : OptResult :=
  let n := mean_returns.length
  minimize (fun w => .fin (quadForm cov_matrix w : ℝ))
    (List.replicate n (1 / (n : ℚ)))
    [fun w => w.sum - 1, fun w => dot w mean_returns - r]

/-- The value appended for one target (src/main.py lines 91–94):
`np.sqrt(result.fun)` on success, `np.nan` (the infeasible marker, `none`)
on failure. -/
noncomputable def frontier_point (minimize : Minimizer)
    (mean_returns : List ℚ) (cov_matrix : List (List ℚ)) (r : ℚ) : Option ℝ :=
  let result := frontier_solve minimize mean_returns cov_matrix r
  if result.success then npSqrt result.objFun else none

/-- `efficient_frontier` (src/main.py lines 80–95): iterates over the targets
in order, appending one entry per target to `frontier_vols`. -/
noncomputable def efficient_frontier (minimize : Minimizer)
    (mean_returns : List ℚ) (cov_matrix : List (List ℚ))
    (target_returns : List ℚ) : List (Option ℝ) :=
  target_returns.foldl
    (fun frontier_vols r =>
      frontier_vols ++ [frontier_point minimize mean_returns cov_matrix r]) []

/-- `np.log(p / q)` for a price `p` and previous price `q`, with IEEE
semantics: `p/0` is a signed infinity (NaN for `0/0`), the log of a negative
number or of NaN or of -inf is NaN, `log 0 = -inf`, `log (+inf) = +inf`. -/
noncomputable def logEntry (p q : ℚ) : FVal :=
  if q = 0 then
    (if 0 < p then .posInf else .nan)
  else if p / q < 0 then .nan
  else if p / q = 0 then .negInf
  else .fin (Real.log (p / q))

/-- `np.log(price_data / price_data.shift(1)).dropna()` (src/main.py line 163
and src/sortino.py line 133): `shift(1)` makes the first row all-NaN, so it is
always dropped; each remaining row is the entrywise log-ratio of a consecutive
row pair, and `dropna` keeps only rows with no NaN entry. -/
noncomputable def log_returns (price_data : List (List ℚ)) : List (List FVal) :=
  ((price_data.zip price_data.tail).map
    (fun pr => List.zipWith logEntry pr.2 pr.1)).filter
    (fun row => row.all (fun v => !v.isNaN))

/-- Specification contract for `returns(prices)` (spec §4.1): the same
log-difference and NaN-row-dropping computation, but failing with
`InsufficientDataError` (modelled as the `Except` error case) when fewer than
2 return rows remain.  No such error class exists anywhere in the code. -/
noncomputable def returnsSpec (price_data : List (List ℚ)) :
    Except Unit (List (List FVal)) :=
  let r := log_returns price_data
  if r.length < 2 then .error () else .ok r

/-- One row of the DataFrame built by `simulate_random_portfolios`: the
(volatility, return, sharpe) triple plus the weights column (`return` is a
Lean keyword, so the field is named `ret`). -/
structure PortfolioRecord where
  volatility : Option ℝ
  ret : ℚ
  sharpe : FVal
  weights : List ℚ

/-- `weights = np.random.random(n_assets); weights /= weights.sum()`
(src/main.py lines 59–60): one raw draw normalized by its sum.  (ℚ division
by a zero sum gives 0 where NumPy would give NaN; `np.random.random` draws
lie in [0,1), whose sum is positive except on an all-zeros draw.) -/
def normalizeW (xs : List ℚ) : List ℚ := xs.map (fun x => x / xs.sum)

/-- `simulate_random_portfolios` (src/main.py lines 53–67).  The randomness
of `np.random.random` is abstracted as a stream `draws` giving the raw
per-instrument uniform values of each iteration.  Each iteration normalizes
its draw, computes the portfolio stats, and appends one row. -/
noncomputable def simulate_random_portfolios (draws : ℕ → List ℚ)
    (n_portfolios : ℕ) (mean_returns : List ℚ) (cov_matrix : List (List ℚ))
    (risk_free_rate : ℚ) : List PortfolioRecord :=
  (List.range n_portfolios).foldl
    (fun results i =>
      let weights := normalizeW (draws i)
      let s := compute_portfolio_stats weights mean_returns cov_matrix
        risk_free_rate
      results ++ [{ volatility := s.2.1, ret := s.1, sharpe := s.2.2,
                    weights := weights }]) []

section Rounding

open scoped Classical

/-- Python's built-in rounding of a real to the nearest integer, ties to the
even integer (banker's rounding), as used by `round(x, 2)`. -/
noncomputable def rheInt (y : ℝ) : ℤ :=
  if Int.fract y < 1/2 then ⌊y⌋
  else if 1/2 < Int.fract y then ⌊y⌋ + 1
  else if Even ⌊y⌋ then ⌊y⌋ else ⌊y⌋ + 1

/-- `round(x, 2)`: banker's rounding at the second decimal place. -/
noncomputable def pyRound2 (x : ℝ) : ℝ := ((rheInt (x * 100) : ℤ) : ℝ) / 100

/-- The value `bankruptcy_probability` computes for a non-NaN Z-score
(src/risk.py lines 81–82): `prob = 1 / (1 + np.exp(1.5 * (Z - 2.5)))`,
returned as `round(prob * 100, 2)`. -/
noncomputable def prob_val (Z : ℝ) : ℝ :=
  pyRound2 ((1 / (1 + Real.exp (1.5 * (Z - 2.5)))) * 100)

/-- `bankruptcy_probability` (src/risk.py lines 77–82): NaN in, NaN out
(`np.isnan` guard); otherwise the rounded logistic value. -/
noncomputable def bankruptcy_probability (Z : Option ℝ) : Option ℝ :=
  match Z with
  | none => none
  | some z => some (prob_val z)

end Rounding

/-- A solver stub that always reports non-convergence, for instantiating the
frontier theorems on concrete inputs. -/
def failingSolver : Minimizer := fun _ _ _ => ⟨false, 0, []⟩

/-- A solver stub that reports convergence with iterate [1]. -/
def solverConvergent : Minimizer := fun _ _ _ => ⟨true, 0, [1]⟩

/-- A solver stub identical to `solverConvergent` except that it reports
non-convergence. -/
def solverDivergent : Minimizer := fun _ _ _ => ⟨false, 0, [1]⟩

end Sharpe

namespace Sharpe

/-- Folding append-of-singleton over a list is mapping over it. -/
theorem foldl_append_singleton {α β : Type} (f : α → β) (l : List α)
    (init : List β) :
    l.foldl (fun acc x => acc ++ [f x]) init = init ++ l.map f := by
  induction l generalizing init with
  | nil => simp
  | cons a t ih => simp [List.foldl_cons, ih]

/-- The variance NumPy computes is a mean of squares, hence non-negative. -/
theorem popVar_nonneg (xs : List ℚ) : 0 ≤ popVar xs := by
  unfold popVar
  apply div_nonneg _ (by positivity)
  apply List.sum_nonneg
  intro x hx
  obtain ⟨y, _, rfl⟩ := List.mem_map.mp hx
  positivity

/-- C3: the claim as stated asserts the downside deviation is 0 when no
per-period portfolio return is negative.  With w = [1] and return matrix
[[1]] the downside subset is empty and `np.std([])` is NaN, so the code's
downside deviation is NaN, not 0. -/
theorem downside_std_nan_on_empty_downside :
    downside_returns [1] [[1]] = [] ∧ downside_std [1] [[1]] = none := by
  have h : downside_returns [1] [[1]] = [] := by
    norm_num [downside_returns, portfolio_returns, dot]
  refine ⟨h, ?_⟩
  unfold downside_std npStd
  rw [h]
  simp

/-- C3 (amended): when the downside subset is nonempty, the downside
deviation is the (non-negative, non-NaN) population standard deviation of
that subset times sqrt 252; when the subset is empty it is NaN (`np.std` of
an empty array), not 0. -/
theorem downside_std_eq_popstd_times_sqrt252
    (w : List ℚ) (R : List (List ℚ)) :
    (downside_returns w R ≠ [] →
      ∃ v : ℝ, downside_std w R = some v ∧ 0 ≤ v ∧
        v = Real.sqrt (popVar (downside_returns w R)) * Real.sqrt 252) ∧
    (downside_returns w R = [] → downside_std w R = none) := by
  constructor
  · intro hne
    refine ⟨Real.sqrt (popVar (downside_returns w R)) * Real.sqrt 252, ?_,
      mul_nonneg (Real.sqrt_nonneg _) (Real.sqrt_nonneg _), rfl⟩
    unfold downside_std npStd
    rw [if_neg hne]
    rfl
  · intro he
    unfold downside_std npStd
    rw [if_pos he]
    rfl

/-- Witness for C3's amended theorem at w = [1], returns = [[-1],[1]]:
the downside subset is the nonempty list [-1]. -/
theorem downside_std_eq_popstd_times_sqrt252_witness :
    downside_returns [1] [[-1],[1]] ≠ [] ∧
    ∃ v : ℝ, downside_std [1] [[-1],[1]] = some v ∧ 0 ≤ v ∧
      v = Real.sqrt (popVar (downside_returns [1] [[-1],[1]])) * Real.sqrt 252 := by
  have h : downside_returns [1] [[-1],[1]] ≠ [] := by
    norm_num [downside_returns, portfolio_returns, dot]
  exact ⟨h, (downside_std_eq_popstd_times_sqrt252 [1] [[-1],[1]]).1 h⟩

/-- C4: the sortino entry of sortino.py's `compute_portfolio_stats` equals
the excess return divided by the downside deviation whenever that deviation
is a positive real, and equals 0 (a real number, never NaN or ±inf) whenever
the deviation is exactly 0 — and also when it is NaN (empty downside set),
since the IEEE guard `downside_std > 0` is false for NaN. -/
theorem sortino_guarded_quotient
    (w mean : List ℚ) (cov R : List (List ℚ)) (rf : ℚ) :
    (downside_std w R = none →
      (compute_portfolio_stats_sortino w mean cov R rf).2.2 = 0) ∧
    (downside_std w R = some 0 →
      (compute_portfolio_stats_sortino w mean cov R rf).2.2 = 0) ∧
    (∀ d : ℝ, downside_std w R = some d → 0 < d →
      (compute_portfolio_stats_sortino w mean cov R rf).2.2 =
        ((dot w mean - rf : ℚ) : ℝ) / d) := by
  have hshow : (compute_portfolio_stats_sortino w mean cov R rf).2.2 =
      sortinoVal (dot w mean - rf) w R := rfl
  by_cases hne : downside_returns w R = []
  · have hdd : downside_std w R = none := by
      unfold downside_std npStd
      rw [if_pos hne]
      rfl
    refine ⟨fun _ => ?_, fun h0 => ?_, fun d hd _ => ?_⟩
    · rw [hshow]
      unfold sortinoVal
      rw [if_neg (by simp [hne])]
    · rw [hdd] at h0
      exact absurd h0 (by simp)
    · rw [hdd] at hd
      exact absurd hd (by simp)
  · have hvnn : (0:ℚ) ≤ popVar (downside_returns w R) := popVar_nonneg _
    have hdd : downside_std w R =
        some (Real.sqrt (popVar (downside_returns w R)) * Real.sqrt 252) := by
      unfold downside_std npStd
      rw [if_neg hne]
      rfl
    refine ⟨fun h => ?_, fun h0 => ?_, fun d hd hdpos => ?_⟩
    · rw [hdd] at h
      exact absurd h (by simp)
    · rw [hdd] at h0
      have hs : Real.sqrt (popVar (downside_returns w R)) * Real.sqrt 252 = 0 :=
        Option.some_injective _ h0
      have h252 : (0:ℝ) < Real.sqrt 252 := Real.sqrt_pos.mpr (by norm_num)
      have hsq : Real.sqrt (popVar (downside_returns w R)) = 0 := by
        rcases mul_eq_zero.mp hs with h1 | h1
        · exact h1
        · exact absurd h1 h252.ne'
      have hvz : popVar (downside_returns w R) = 0 := by
        have := Real.sqrt_eq_zero'.mp hsq
        have hle : ((popVar (downside_returns w R) : ℚ) : ℝ) ≤ 0 := this
        exact_mod_cast le_antisymm (by exact_mod_cast hle) hvnn
      rw [hshow]
      unfold sortinoVal
      rw [if_neg (by simp [hvz])]
    · rw [hdd] at hd
      have hdval : d = Real.sqrt (popVar (downside_returns w R)) * Real.sqrt 252 :=
        (Option.some_injective _ hd).symm
      have hvpos : (0:ℚ) < popVar (downside_returns w R) := by
        by_contra hnp
        push_neg at hnp
        have hvz : popVar (downside_returns w R) = 0 := le_antisymm hnp hvnn
        rw [hvz] at hdval
        simp [Real.sqrt_zero] at hdval
        rw [hdval] at hdpos
        exact lt_irrefl _ hdpos
      rw [hshow]
      unfold sortinoVal
      rw [if_pos ⟨hne, hvpos⟩, hdval]

/-- Witness for C4 at w = [1], mean = [1], cov = [[1]], R = [[1]], rf = 0:
the downside set is empty, the deviation is NaN, and sortino is 0. -/
theorem sortino_guarded_quotient_witness :
    downside_std [1] [[1]] = none ∧
    (compute_portfolio_stats_sortino [1] [1] [[1]] [[1]] 0).2.2 = 0 := by
  have h : downside_std [1] [[1]] = none := by
    unfold downside_std npStd
    rw [if_pos (by norm_num [downside_returns, portfolio_returns, dot])]
    rfl
  exact ⟨h, (sortino_guarded_quotient [1] [1] [[1]] [[1]] 0).1 h⟩

/-- C2: the claim as stated asserts sharpe is 0 whenever the volatility is
exactly 0.  With w = [1], mean = [5/100], cov = [[0]], rf = 2/100 the
volatility is exactly 0 and src/main.py line 47 divides the positive excess
return 3/100 by it, so the sharpe entry is +inf, not 0. -/
theorem sharpe_inf_at_zero_volatility :
    (compute_portfolio_stats [1] [5/100] [[0]] (2/100)).2.1 = some 0 ∧
    (compute_portfolio_stats [1] [5/100] [[0]] (2/100)).2.2 = FVal.posInf := by
  have hq : quadForm [[0]] [1] = 0 := by
    norm_num [quadForm, dot, matVec]
  constructor
  · show portfolio_vol [1] [[0]] = some 0
    unfold portfolio_vol npSqrt
    rw [hq]
    norm_num
  · show divBySqrt (dot [1] [5/100] - 2/100) (quadForm [[0]] [1]) = FVal.posInf
    have hnum : (0:ℚ) < dot [1] [5/100] - 2/100 := by norm_num [dot]
    unfold divBySqrt
    rw [hq]
    simp [hnum]

/-- C2 (amended): sharpe is the IEEE quotient `(w·mean − rf) / sqrt(wᵗ·cov·w)`
with no zero-volatility guard: with a positive radicand it is the finite
quotient, but at zero volatility it is +inf, −inf or NaN according to the
sign of the excess return — division by zero does occur and the result is
never defined to be 0 there. -/
theorem sharpe_is_unguarded_quotient
    (w mean : List ℚ) (cov : List (List ℚ)) (rf : ℚ) :
    (0 < quadForm cov w →
      (compute_portfolio_stats w mean cov rf).2.2 =
        FVal.fin ((dot w mean - rf : ℚ) / Real.sqrt (quadForm cov w))) ∧
    (quadForm cov w = 0 → 0 < dot w mean - rf →
      (compute_portfolio_stats w mean cov rf).2.2 = FVal.posInf) ∧
    (quadForm cov w = 0 → dot w mean - rf < 0 →
      (compute_portfolio_stats w mean cov rf).2.2 = FVal.negInf) ∧
    (quadForm cov w = 0 → dot w mean - rf = 0 →
      (compute_portfolio_stats w mean cov rf).2.2 = FVal.nan) := by
  refine ⟨fun hq => ?_, fun hq hn => ?_, fun hq hn => ?_, fun hq hn => ?_⟩ <;>
    show divBySqrt (dot w mean - rf) (quadForm cov w) = _ <;>
    unfold divBySqrt
  · rw [if_neg (not_lt.mpr hq.le), if_neg hq.ne']
  · rw [hq]
    simp [hn]
  · rw [hq]
    simp [hn, not_lt.mpr hn.le]
  · rw [hq]
    simp [hn]

/-- Witness for C2's amended theorem: w = [1], mean = [1], cov = [[4]],
rf = 0 has positive radicand 4, and sharpe = 1 / sqrt 4. -/
theorem sharpe_is_unguarded_quotient_witness :
    (0:ℚ) < quadForm [[4]] [1] ∧
    (compute_portfolio_stats [1] [1] [[4]] 0).2.2 =
      FVal.fin ((dot [1] [1] - 0 : ℚ) / Real.sqrt (quadForm [[4]] [1])) := by
  have hq : (0:ℚ) < quadForm [[4]] [1] := by norm_num [quadForm, dot, matVec]
  exact ⟨hq, (sharpe_is_unguarded_quotient [1] [1] [[4]] 0).1 hq⟩

/-- C1: the claim as stated asserts `portfolio_vol` is never NaN.  The code
applies `np.sqrt` directly with no clamp, so a negative radicand (here a
covariance "matrix" with a tiny negative eigenvalue, cov = [[-1/1000000]],
w = [1]) produces NaN. -/
theorem portfolio_vol_nan_on_negative_radicand :
    portfolio_vol [1] [[-(1/1000000)]] = none := by
  have h : quadForm [[-(1/1000000)]] [1] < 0 := by
    norm_num [quadForm, dot, matVec]
  unfold portfolio_vol npSqrt
  rw [if_pos h]

/-- C1 (amended): when the radicand `wᵗ·cov·w` is non-negative,
`portfolio_vol` is a non-NaN, non-negative real; when the radicand is
negative the code propagates NaN (there is no clamping). -/
theorem portfolio_vol_nonneg_of_radicand_nonneg
    (w : List ℚ) (cov : List (List ℚ)) (h : 0 ≤ quadForm cov w) :
    ∃ v : ℝ, portfolio_vol w cov = some v ∧ 0 ≤ v := by
  refine ⟨Real.sqrt (quadForm cov w), ?_, Real.sqrt_nonneg _⟩
  simp [portfolio_vol, npSqrt, not_lt.mpr h]

/-- Witness for C1's amended theorem at w = [1/2, 1/2], cov = [[4,0],[0,4]]. -/
theorem portfolio_vol_nonneg_witness :
    (0 : ℚ) ≤ quadForm [[4,0],[0,4]] [1/2,1/2] ∧
    ∃ v : ℝ, portfolio_vol [1/2,1/2] [[4,0],[0,4]] = some v ∧ 0 ≤ v := by
  refine ⟨by norm_num [quadForm, dot, matVec], ?_⟩
  exact portfolio_vol_nonneg_of_radicand_nonneg [1/2,1/2] [[4,0],[0,4]]
    (by norm_num [quadForm, dot, matVec])

/-- C5: the frontier has exactly one entry per input target, the i-th entry
is the solve for the i-th target (order preserved), and a solve whose
convergence flag is false contributes the NaN infeasible marker (`none`) at
its position — the frontier function itself is total, so no error escapes. -/
theorem efficient_frontier_length_and_order (minimize : Minimizer)
    (mean_returns : List ℚ) (cov_matrix : List (List ℚ))
    (target_returns : List ℚ) :
    (efficient_frontier minimize mean_returns cov_matrix target_returns).length
      = target_returns.length ∧
    (∀ (i : ℕ) (h : i < target_returns.length),
      (efficient_frontier minimize mean_returns cov_matrix target_returns)[i]?
        = some (frontier_point minimize mean_returns cov_matrix
            (target_returns.get ⟨i, h⟩))) ∧
    (∀ r : ℚ, (frontier_solve minimize mean_returns cov_matrix r).success = false →
      frontier_point minimize mean_returns cov_matrix r = none) := by
  have hmap : efficient_frontier minimize mean_returns cov_matrix target_returns
      = target_returns.map (frontier_point minimize mean_returns cov_matrix) := by
    unfold efficient_frontier
    rw [foldl_append_singleton]
    simp
  refine ⟨by rw [hmap]; simp, fun i h => ?_, fun r hr => ?_⟩
  · rw [hmap, List.getElem?_map, List.getElem?_eq_getElem h]
    simp [List.get_eq_getElem]
  · unfold frontier_point
    simp [hr]

/-- Witness for C5 with the always-failing solver on targets [1, 2]:
position 0 exists and holds the infeasible marker. -/
theorem efficient_frontier_length_and_order_witness :
    (0 < ([(1:ℚ), 2]).length) ∧
    (efficient_frontier failingSolver [1] [[1]] [1, 2])[0]?
      = some (frontier_point failingSolver [1] [[1]]
          (([(1:ℚ), 2]).get ⟨0, by norm_num⟩)) ∧
    (frontier_solve failingSolver [1] [[1]] 1).success = false ∧
    frontier_point failingSolver [1] [[1]] 1 = none := by
  refine ⟨by norm_num, ?_, rfl, ?_⟩
  · exact (efficient_frontier_length_and_order failingSolver [1] [[1]] [1, 2]).2.1
      0 (by norm_num)
  · exact (efficient_frontier_length_and_order failingSolver [1] [[1]] [1, 2]).2.2
      1 rfl

/-- C6: the claim asserts every constrained-solve operation exposes the
solver's convergence flag to its caller.  `min_variance` returns only
`result.x`: two solvers that differ only in the convergence flag produce
identical `min_variance` outputs, so its caller cannot observe the flag. -/
theorem min_variance_hides_convergence_flag :
    (solverConvergent (fun _ => FVal.nan) [] []).success ≠
      (solverDivergent (fun _ => FVal.nan) [] []).success ∧
    min_variance solverConvergent [1] [[1]] =
      min_variance solverDivergent [1] [[1]] := by
  exact ⟨by simp [solverConvergent, solverDivergent], rfl⟩

/-- C6 (amended): `max_sharpe_portfolio` returns the solver's full result,
so its caller sees the convergence flag, the best objective value, and the
best iterate; `min_variance` exposes only the iterate `result.x`;
a frontier point exposes only the volatility-or-NaN value. -/
theorem optimizer_failure_surface (minimize : Minimizer)
    (mean_returns : List ℚ) (cov_matrix : List (List ℚ)) (rf : ℚ) :
    (max_sharpe_portfolio minimize mean_returns cov_matrix rf).success
      = (minimize (neg_sharpe mean_returns cov_matrix rf)
          (List.replicate mean_returns.length (1 / (mean_returns.length : ℚ)))
          [fun w => w.sum - 1]).success ∧
    (max_sharpe_portfolio minimize mean_returns cov_matrix rf).objFun
      = (minimize (neg_sharpe mean_returns cov_matrix rf)
          (List.replicate mean_returns.length (1 / (mean_returns.length : ℚ)))
          [fun w => w.sum - 1]).objFun ∧
    (max_sharpe_portfolio minimize mean_returns cov_matrix rf).x
      = (minimize (neg_sharpe mean_returns cov_matrix rf)
          (List.replicate mean_returns.length (1 / (mean_returns.length : ℚ)))
          [fun w => w.sum - 1]).x ∧
    min_variance minimize mean_returns cov_matrix
      = (minimize (fun w => .fin (quadForm cov_matrix w : ℝ))
          (List.replicate mean_returns.length (1 / (mean_returns.length : ℚ)))
          [fun w => w.sum - 1]).x :=
  ⟨rfl, rfl, rfl, rfl⟩

/-- C7: the claim asserts the returns computation raises
`InsufficientDataError` when fewer than 2 return rows remain.  On the
two-row price history [[1], [1]] only one return row remains; the spec
contract errors there, but the code's computation is total and just returns
the degenerate matrix — it never raises. -/
theorem log_returns_no_insufficient_data_check :
    returnsSpec [[1], [1]] = Except.error () ∧
    (log_returns [[1], [1]]).length = 1 ∧
    Except.ok (log_returns [[1], [1]]) ≠ returnsSpec [[1], [1]] := by
  have hlen : (log_returns [[1], [1]]).length = 1 := by
    norm_num [log_returns, logEntry, FVal.isNaN]
  have hspec : returnsSpec [[1], [1]] = Except.error () := by
    unfold returnsSpec
    rw [if_pos (by rw [hlen]; norm_num)]
  refine ⟨hspec, hlen, ?_⟩
  rw [hspec]
  intro hcontra
  exact Except.noConfusion hcontra

/-- C7 (amended): the code computes the log-difference returns and drops
NaN rows but performs no row-count check and raises nothing; it agrees with
the spec's `returns` exactly when at least 2 rows remain, and with fewer
rows it still returns the degenerate matrix where the spec demands
`InsufficientDataError`. -/
theorem log_returns_total_agrees_with_spec (price_data : List (List ℚ)) :
    (2 ≤ (log_returns price_data).length →
      returnsSpec price_data = Except.ok (log_returns price_data)) ∧
    ((log_returns price_data).length < 2 →
      returnsSpec price_data = Except.error ()) := by
  constructor
  · intro h
    unfold returnsSpec
    rw [if_neg (by omega)]
  · intro h
    unfold returnsSpec
    rw [if_pos h]

/-- Witness for C7's amended theorem on the three-row price history
[[1], [1], [1]], which leaves 2 return rows. -/
theorem log_returns_total_agrees_with_spec_witness :
    2 ≤ (log_returns [[1], [1], [1]]).length ∧
    returnsSpec [[1], [1], [1]] = Except.ok (log_returns [[1], [1], [1]]) := by
  have h : 2 ≤ (log_returns [[1], [1], [1]]).length := by
    norm_num [log_returns, logEntry, FVal.isNaN]
  exact ⟨h, (log_returns_total_agrees_with_spec [[1], [1], [1]]).1 h⟩

/-- C8: the sampler produces exactly `n_portfolios` records in insertion
order — an empty list for 0 — and the i-th record's weight vector is the
i-th raw draw normalized by its sum. -/
theorem simulate_random_portfolios_count (draws : ℕ → List ℚ)
    (n_portfolios : ℕ) (mean_returns : List ℚ) (cov_matrix : List (List ℚ))
    (risk_free_rate : ℚ) :
    (simulate_random_portfolios draws n_portfolios mean_returns cov_matrix
      risk_free_rate).length = n_portfolios ∧
    simulate_random_portfolios draws 0 mean_returns cov_matrix
      risk_free_rate = [] ∧
    ∀ (i : ℕ), i < n_portfolios →
      ((simulate_random_portfolios draws n_portfolios mean_returns cov_matrix
        risk_free_rate)[i]?).map PortfolioRecord.weights
        = some (normalizeW (draws i)) := by
  have hmap : ∀ m : ℕ, simulate_random_portfolios draws m mean_returns
      cov_matrix risk_free_rate
      = (List.range m).map (fun i =>
          let weights := normalizeW (draws i)
          let s := compute_portfolio_stats weights mean_returns cov_matrix
            risk_free_rate
          { volatility := s.2.1, ret := s.1, sharpe := s.2.2,
            weights := weights }) := by
    intro m
    unfold simulate_random_portfolios
    rw [foldl_append_singleton]
    simp
  refine ⟨by rw [hmap]; simp, by rw [hmap]; simp, fun i h => ?_⟩
  rw [hmap, List.getElem?_map, List.getElem?_range h]
  simp

/-- Witness for C8 at n = 1, draws ≡ [1, 3]: the single record's weights are
[1/4, 3/4]. -/
theorem simulate_random_portfolios_count_witness :
    0 < 1 ∧
    ((simulate_random_portfolios (fun _ => [1, 3]) 1 [1, 1] [[1, 0], [0, 1]]
      0)[0]?).map PortfolioRecord.weights
      = some (normalizeW [1, 3]) := by
  exact ⟨by norm_num,
    (simulate_random_portfolios_count (fun _ => [1, 3]) 1 [1, 1]
      [[1, 0], [0, 1]] 0).2.2 0 (by norm_num)⟩

/-- C9: row correspondence in the sampler output — the i-th recorded
(return, volatility, sharpe) values are exactly `compute_portfolio_stats`
recomputed on the i-th recorded weight vector with the same mean,
covariance and risk-free rate. -/
theorem simulate_random_portfolios_row_invariant (draws : ℕ → List ℚ)
    (n_portfolios : ℕ) (mean_returns : List ℚ) (cov_matrix : List (List ℚ))
    (risk_free_rate : ℚ) :
    ∀ (i : ℕ), i < n_portfolios → ∃ row : PortfolioRecord,
      (simulate_random_portfolios draws n_portfolios mean_returns cov_matrix
        risk_free_rate)[i]? = some row ∧
      row.ret = (compute_portfolio_stats row.weights mean_returns cov_matrix
        risk_free_rate).1 ∧
      row.volatility = (compute_portfolio_stats row.weights mean_returns
        cov_matrix risk_free_rate).2.1 ∧
      row.sharpe = (compute_portfolio_stats row.weights mean_returns
        cov_matrix risk_free_rate).2.2 := by
  intro i h
  have hmap : simulate_random_portfolios draws n_portfolios mean_returns
      cov_matrix risk_free_rate
      = (List.range n_portfolios).map (fun j =>
          let weights := normalizeW (draws j)
          let s := compute_portfolio_stats weights mean_returns cov_matrix
            risk_free_rate
          { volatility := s.2.1, ret := s.1, sharpe := s.2.2,
            weights := weights }) := by
    unfold simulate_random_portfolios
    rw [foldl_append_singleton]
    simp
  refine ⟨⟨(compute_portfolio_stats (normalizeW (draws i)) mean_returns
      cov_matrix risk_free_rate).2.1,
    (compute_portfolio_stats (normalizeW (draws i)) mean_returns cov_matrix
      risk_free_rate).1,
    (compute_portfolio_stats (normalizeW (draws i)) mean_returns cov_matrix
      risk_free_rate).2.2,
    normalizeW (draws i)⟩, ?_, rfl, rfl, rfl⟩
  rw [hmap, List.getElem?_map, List.getElem?_range h]
  rfl

/-- Witness for C9 at n = 2, i = 1, draws ≡ [2, 2]. -/
theorem simulate_random_portfolios_row_invariant_witness :
    1 < 2 ∧ ∃ row : PortfolioRecord,
      (simulate_random_portfolios (fun _ => [2, 2]) 2 [1, 2] [[1, 0], [0, 1]]
        (1/100))[1]? = some row ∧
      row.ret = (compute_portfolio_stats row.weights [1, 2] [[1, 0], [0, 1]]
        (1/100)).1 ∧
      row.volatility = (compute_portfolio_stats row.weights [1, 2]
        [[1, 0], [0, 1]] (1/100)).2.1 ∧
      row.sharpe = (compute_portfolio_stats row.weights [1, 2]
        [[1, 0], [0, 1]] (1/100)).2.2 := by
  exact ⟨by norm_num,
    simulate_random_portfolios_row_invariant (fun _ => [2, 2]) 2 [1, 2]
      [[1, 0], [0, 1]] (1/100) 1 (by norm_num)⟩

/-- Banker's rounding never rounds below the floor. -/
theorem floor_le_rheInt (y : ℝ) : ⌊y⌋ ≤ rheInt y := by
  unfold rheInt
  split_ifs <;> omega

/-- Banker's rounding never rounds above the floor plus one. -/
theorem rheInt_le_floor_add_one (y : ℝ) : rheInt y ≤ ⌊y⌋ + 1 := by
  unfold rheInt
  split_ifs <;> omega

/-- Banker's rounding is monotone. -/
theorem rheInt_mono {y z : ℝ} (h : y ≤ z) : rheInt y ≤ rheInt z := by
  rcases lt_or_eq_of_le (Int.floor_mono h) with hf | hf
  · calc rheInt y ≤ ⌊y⌋ + 1 := rheInt_le_floor_add_one y
      _ ≤ ⌊z⌋ := by omega
      _ ≤ rheInt z := floor_le_rheInt z
  · have hfr : Int.fract y ≤ Int.fract z := by
      unfold Int.fract
      rw [hf]
      linarith
    unfold rheInt
    rw [hf]
    split_ifs <;> first | omega | linarith

/-- C10: the bankruptcy probability is monotonically decreasing in the
Z-score, always lies in [0, 100] for a non-NaN Z (a logistic curve scaled to
percent and rounded to 2 decimals), and NaN maps to NaN. -/
theorem bankruptcy_probability_props :
    (∀ z1 z2 : ℝ, z1 ≤ z2 → prob_val z2 ≤ prob_val z1) ∧
    (∀ z : ℝ, 0 ≤ prob_val z ∧ prob_val z ≤ 100) ∧
    bankruptcy_probability none = none ∧
    (∀ z : ℝ, bankruptcy_probability (some z) = some (prob_val z)) := by
  refine ⟨fun z1 z2 hz => ?_, fun z => ?_, rfl, fun z => rfl⟩
  · unfold prob_val pyRound2
    have hexp : Real.exp (1.5 * (z1 - 2.5)) ≤ Real.exp (1.5 * (z2 - 2.5)) :=
      Real.exp_le_exp.mpr (by linarith)
    have hpos1 : (0:ℝ) < 1 + Real.exp (1.5 * (z1 - 2.5)) := by positivity
    have hdiv : 1 / (1 + Real.exp (1.5 * (z2 - 2.5))) ≤
        1 / (1 + Real.exp (1.5 * (z1 - 2.5))) :=
      one_div_le_one_div_of_le hpos1 (by linarith)
    have hmono := rheInt_mono (show
      (1 / (1 + Real.exp (1.5 * (z2 - 2.5)))) * 100 * 100 ≤
      (1 / (1 + Real.exp (1.5 * (z1 - 2.5)))) * 100 * 100 by linarith)
    have hc : ((rheInt ((1 / (1 + Real.exp (1.5 * (z2 - 2.5)))) * 100 * 100)
        : ℤ) : ℝ) ≤
        ((rheInt ((1 / (1 + Real.exp (1.5 * (z1 - 2.5)))) * 100 * 100)
        : ℤ) : ℝ) := by
      exact_mod_cast hmono
    linarith
  · have hpos : (0:ℝ) < 1 + Real.exp (1.5 * (z - 2.5)) := by positivity
    have hp0 : (0:ℝ) < 1 / (1 + Real.exp (1.5 * (z - 2.5))) := by positivity
    have hp1 : 1 / (1 + Real.exp (1.5 * (z - 2.5))) < 1 := by
      rw [div_lt_one hpos]
      linarith [Real.exp_pos (1.5 * (z - 2.5))]
    have hy0 : (0:ℝ) < (1 / (1 + Real.exp (1.5 * (z - 2.5)))) * 100 * 100 := by
      positivity
    have hy1 : (1 / (1 + Real.exp (1.5 * (z - 2.5)))) * 100 * 100 < 10000 := by
      nlinarith
    have hfl0 : (0:ℤ) ≤ ⌊(1 / (1 + Real.exp (1.5 * (z - 2.5)))) * 100 * 100⌋ :=
      Int.floor_nonneg.mpr hy0.le
    have hflub : ⌊(1 / (1 + Real.exp (1.5 * (z - 2.5)))) * 100 * 100⌋ < 10000 :=
      Int.floor_lt.mpr (by exact_mod_cast hy1)
    have hlo : (0:ℤ) ≤ rheInt ((1 / (1 + Real.exp (1.5 * (z - 2.5)))) * 100 * 100) :=
      le_trans hfl0 (floor_le_rheInt _)
    have hhi : rheInt ((1 / (1 + Real.exp (1.5 * (z - 2.5)))) * 100 * 100) ≤ 10000 :=
      le_trans (rheInt_le_floor_add_one _) (by omega)
    constructor
    · unfold prob_val pyRound2
      apply div_nonneg _ (by norm_num : (0:ℝ) ≤ 100)
      exact_mod_cast hlo
    · unfold prob_val pyRound2
      rw [div_le_iff₀ (by norm_num : (0:ℝ) < 100)]
      calc ((rheInt ((1 / (1 + Real.exp (1.5 * (z - 2.5)))) * 100 * 100)
          : ℤ) : ℝ) ≤ 10000 := by exact_mod_cast hhi
        _ = 100 * 100 := by norm_num

/-- Witness for C10: monotonicity applied at Z-scores 0 ≤ 1, and the range
bounds at Z = 7. -/
theorem bankruptcy_probability_props_witness :
    (0:ℝ) ≤ 1 ∧ prob_val 1 ≤ prob_val 0 ∧
    0 ≤ prob_val 7 ∧ prob_val 7 ≤ 100 :=
  ⟨by norm_num, bankruptcy_probability_props.1 0 1 (by norm_num),
   (bankruptcy_probability_props.2.1 7).1,
   (bankruptcy_probability_props.2.1 7).2⟩

end Sharpe
